import Mathlib

/-!
Shallow embedding of the dynamic SQL statement construction layer of the
express-jobly backend, and proofs about it.

Embedded code:
  * `sqlForPartialUpdate` from `src/helpers/sql.js`;
  * the WHERE-clause construction inside `Company.findAll`
    (`src/unnamed/part_002`, the companies model) including its
    `Number(min) > Number(max)` range check;
  * the WHERE-clause construction inside `Job.findAll`
    (`src/models/job.js`).

JavaScript objects are modelled as association lists in property insertion
order (string keys, scalar values); `"k" in obj` is key membership and
`obj.k` is lookup of the first entry.  JavaScript strings are Lean strings,
numbers are integers (the scalar values the routes pass are integers or
strings), and `Number()` coercion is modelled with an explicit NaN point.
The database executor is out of scope: a findAll call is embedded up to the
pair (assembled SQL text, positional parameter array) it hands the driver.
-/

/-- Scalar values a criteria / update object can hold: strings, numbers,
booleans and null, mirroring the closed value set the validation layer
admits. -/
inductive Scalar where
  | s (v : String)
  | i (v : Int)
  | b (v : Bool)
  | null
deriving DecidableEq, Repr

/-- A JavaScript object with scalar values, as an association list in
property insertion order.  Real objects have unique keys; lookups below
take the first entry, which coincides with object semantics. -/
abbrev JSObj := List (String × Scalar)

/-- Membership test, modelling the JavaScript `"k" in obj` operator. -/
def JSObj.has (o : JSObj) (k : String) : Bool :=
  o.any (fun p => p.1 = k)

/-- Property access `obj.k`: `some` value, or `none` for `undefined`. -/
def JSObj.get (o : JSObj) (k : String) : Option Scalar :=
  (o.find? (fun p => p.1 = k)).map (fun p => p.2)

/-- Property access defaulted to `null`; only used under a `has` guard, so
the default is never observable. -/
def JSObj.getD (o : JSObj) (k : String) : Scalar :=
  ((o.find? (fun p => p.1 = k)).map (fun p => p.2)).getD Scalar.null

/-- Modelled from the spec: the error classes of the repository's
`expressError` module (the module itself is not among the source files;
the spec's error taxonomy names a client-input error, surfaced by the code
as `BadRequestError`, and a `NotFoundError`).  The optional message is the
constructor argument the throwing site passes, `none` when it passes
nothing. -/
inductive JError where
  | badRequest (msg : Option String)
  | notFound (msg : Option String)
deriving DecidableEq, Repr

/-! ### Decimal rendering of placeholder indices

JavaScript renders `${idx + 1}` in decimal.  `decDigitsFuel` is structural
in a fuel argument (`n + 1` steps always suffice) so that the kernel can
evaluate it on concrete inputs. -/

/-- Decimal digits of `n`, most significant first, computed with fuel. -/
def decDigitsFuel : Nat → Nat → List Nat
  | 0, _ => []
  | fuel + 1, n => if n < 10 then [n] else decDigitsFuel fuel (n / 10) ++ [n % 10]

/-- Decimal digits of `n`, most significant first. -/
def decDigits (n : Nat) : List Nat := decDigitsFuel (n + 1) n

/-- The character for the decimal digit `d`. -/
def digitChar (d : Nat) : Char := Char.ofNat (48 + d)

/-- Decimal rendering of a natural number, as JavaScript string
interpolation renders a nonnegative integer. -/
def natToDec (n : Nat) : String := String.mk ((decDigits n).map digitChar)

/-- Value of a digit list, most significant first. -/
def decVal (ds : List Nat) : Nat := ds.foldl (fun a d => 10 * a + d) 0

/-! ### The update-clause builder (`src/helpers/sql.js`) -/

/-- A logical-to-physical column name map (`jsToSql`), an object with
string values. -/
abbrev NameMap := List (String × String)

/-- Lookup in a `NameMap`, modelling `jsToSql[colName]`. -/
def lookupStr (m : NameMap) (k : String) : Option String :=
  (m.find? (fun p => p.1 = k)).map (fun p => p.2)

/-- Models `jsToSql[colName] || colName`: the looked-up value unless it is
falsy.  For string-valued maps the falsy values are `undefined` (key
absent) and the empty string, both of which fall back to `colName`. -/
def resolveName (jsToSql : NameMap) (colName : String) : String :=
  match lookupStr jsToSql colName with
  | some v => if v = "" then colName else v
  | none => colName

/-- One emitted assignment: the template literal
`"${jsToSql[colName] || colName}"=$${idx + 1}` at entry `p = (idx, colName)`. -/
def fragOf (jsToSql : NameMap) (p : Nat × String) : String :=
  "\"" ++ resolveName jsToSql p.2 ++ "\"=$" ++ natToDec (p.1 + 1)

/-- `keys.map((colName, idx) => ...)` of the source. -/
def updateCols (keys : List String) (jsToSql : NameMap) : List String :=
  keys.enum.map (fragOf jsToSql)

/-- `Array.prototype.join(sep)`. -/
def joinSep (sep : String) : List String → String
  | [] => ""
  | [x] => x
  | x :: xs => x ++ sep ++ joinSep sep xs

/-- A builder output: a clause string and the positional values bound to
its placeholders. -/
structure SqlFragment where
  clause : String
  values : List Scalar
deriving DecidableEq, Repr

/-- `sqlForPartialUpdate(dataToUpdate, jsToSql)` from `src/helpers/sql.js`:
throws `BadRequestError("No data")` on an empty object, otherwise returns
`setCols` (here `clause`) and `values`. -/
def sqlForPartialUpdate (dataToUpdate : JSObj) (jsToSql : NameMap) :
    Except JError SqlFragment :=
  let keys := dataToUpdate.map (fun p => p.1)
  if keys.length = 0 then Except.error (JError.badRequest (some "No data"))
  else Except.ok
    { clause := joinSep ", " (updateCols keys jsToSql)
      values := dataToUpdate.map (fun p => p.2) }

/-! ### JavaScript `Number()` coercion and the `>` comparison

`Company.findAll` begins with
`if (Number(queries.minEmployees) > Number(queries.maxEmployees))`.
`Number()` maps `undefined` to NaN, booleans to 0/1, `null` to 0 and
numbers to themselves; a string goes through the StringNumericLiteral
grammar: strip leading/trailing whitespace and line terminators, an empty
remainder is 0, `0x`/`0o`/`0b` prefixes introduce unsigned hex, octal and
binary integers, and otherwise an optional sign precedes `Infinity` or a
decimal literal `digits [. digits] [e|E [sign] digits]` (at least one
mantissa digit); anything else, a trailing character included, is NaN.
Values are modelled as exact rationals — IEEE-754 rounding of a parsed
literal is below the granularity of anything the claims observe, while
NaN and the two infinities, which the `>` comparison does observe, are
explicit.  `>` is false whenever either side is NaN, and ±Infinity
compare above/below every finite value. -/

/-- A JavaScript number as far as the range check observes it: NaN, an
infinity (`neg` for `-Infinity`), or a finite value as an exact
rational. -/
inductive JNum where
  | nan
  | inf (neg : Bool)
  | val (q : Rat)
deriving DecidableEq, Repr

/-- Digit test on characters (codes 48-57). -/
def isDig (c : Char) : Bool := 48 ≤ c.toNat && c.toNat ≤ 57

/-- Value of a digit character. -/
def digVal (c : Char) : Nat := c.toNat - 48

/-- The characters ECMAScript strips around a StringNumericLiteral:
WhiteSpace (tab, vertical tab, form feed, space, no-break space, BOM and
the Unicode space separators) and LineTerminator (LF, CR, LS, PS). -/
def isStrWS (c : Char) : Bool :=
  c.toNat = 9 || c.toNat = 10 || c.toNat = 11 || c.toNat = 12 || c.toNat = 13 ||
  c.toNat = 32 || c.toNat = 160 || c.toNat = 5760 ||
  (8192 ≤ c.toNat && c.toNat ≤ 8202) || c.toNat = 8232 || c.toNat = 8233 ||
  c.toNat = 8239 || c.toNat = 8287 || c.toNat = 12288 || c.toNat = 65279

/-- Strip leading and trailing string whitespace. -/
def trimWS (cs : List Char) : List Char :=
  ((cs.dropWhile isStrWS).reverse.dropWhile isStrWS).reverse

/-- The plus sign. -/
def plusChar : Char := Char.ofNat 43

/-- The minus sign. -/
def minusChar : Char := Char.ofNat 45

/-- The decimal point. -/
def dotChar : Char := Char.ofNat 46

/-- The zero digit. -/
def zeroChar : Char := Char.ofNat 48

/-- Value of a decimal digit run. -/
def digitsVal (ds : List Char) : Nat := decVal (ds.map digVal)

/-- Powers of ten. -/
def natPow10 : Nat → Nat
  | 0 => 1
  | n + 1 => 10 * natPow10 n

/-- Parse an optional ExponentPart (`e`/`E`, optional sign, decimal
digits) that must consume the whole remainder, scaling the exact value
`num / den` by it (all arithmetic on integers; the rational is built once
at the end, keeping every step kernel-computable). -/
def parseExpPart (num : Int) (den : Nat) : List Char → Option (Int × Nat)
  | [] => some (num, den)
  | c :: rest =>
    if c.toNat = 101 || c.toNat = 69 then
      let sr : Bool × List Char :=
        match rest with
        | s :: r2 =>
          if s = plusChar then (false, r2)
          else if s = minusChar then (true, r2)
          else (false, rest)
        | [] => (false, [])
      if sr.2.isEmpty || !sr.2.all isDig then none
      else if sr.1 then some (num, den * natPow10 (digitsVal sr.2))
      else some (num * Int.ofNat (natPow10 (digitsVal sr.2)), den)
    else none

/-- Parse a StrUnsignedDecimalLiteral other than `Infinity`:
`digits [. digits] [exponent]` with at least one mantissa digit,
consuming the whole remainder; the value is the numerator/denominator
pair. -/
def parseDec (cs : List Char) : Option (Int × Nat) :=
  let intPart := cs.takeWhile isDig
  let rest := cs.dropWhile isDig
  match rest with
  | [] => if intPart.isEmpty then none
          else some (Int.ofNat (digitsVal intPart), 1)
  | c :: rest2 =>
    if c = dotChar then
      let fracPart := rest2.takeWhile isDig
      let rest3 := rest2.dropWhile isDig
      if intPart.isEmpty && fracPart.isEmpty then none
      else parseExpPart
        (Int.ofNat (digitsVal intPart * natPow10 fracPart.length
          + digitsVal fracPart))
        (natPow10 fracPart.length) rest3
    else if intPart.isEmpty then none
    else parseExpPart (Int.ofNat (digitsVal intPart)) 1 rest

/-- Hex digit test. -/
def isHexDig (c : Char) : Bool :=
  isDig c || (97 ≤ c.toNat && c.toNat ≤ 102) || (65 ≤ c.toNat && c.toNat ≤ 70)

/-- Octal digit test. -/
def isOctDig (c : Char) : Bool := 48 ≤ c.toNat && c.toNat ≤ 55

/-- Binary digit test. -/
def isBinDig (c : Char) : Bool := c.toNat = 48 || c.toNat = 49

/-- Value of a hex digit (also serves smaller bases). -/
def hexVal (c : Char) : Nat :=
  if isDig c then digVal c
  else if 97 ≤ c.toNat then c.toNat - 87
  else c.toNat - 55

/-- Value of a digit run in the given base. -/
def radixVal (base : Nat) (ds : List Char) : Nat :=
  ds.foldl (fun a c => base * a + hexVal c) 0

/-- A `0x`/`0o`/`0b` literal body: nonempty digits of the base, consuming
the whole remainder, else NaN (no sign, fraction or exponent allowed). -/
def parseRadixNum (base : Nat) (ok : Char → Bool) (ds : List Char) : JNum :=
  if !ds.isEmpty && ds.all ok then JNum.val (mkRat (Int.ofNat (radixVal base ds)) 1)
  else JNum.nan

/-- An optionally signed `Infinity` or decimal literal, else NaN. -/
def parseSigned (cs : List Char) : JNum :=
  let sr : Bool × List Char :=
    match cs with
    | c :: r =>
      if c = plusChar then (false, r)
      else if c = minusChar then (true, r)
      else (false, cs)
    | [] => (false, [])
  if sr.2 = "Infinity".data then JNum.inf sr.1
  else
    match parseDec sr.2 with
    | some nd => JNum.val (mkRat (if sr.1 then -nd.1 else nd.1) nd.2)
    | none => JNum.nan

/-- `Number()` on a string (see the section comment for the grammar). -/
def strToJNum (s : String) : JNum :=
  match trimWS s.data with
  | [] => JNum.val 0
  | c0 :: c1 :: rest =>
    if c0 = zeroChar && (c1.toNat = 120 || c1.toNat = 88) then
      parseRadixNum 16 isHexDig rest
    else if c0 = zeroChar && (c1.toNat = 111 || c1.toNat = 79) then
      parseRadixNum 8 isOctDig rest
    else if c0 = zeroChar && (c1.toNat = 98 || c1.toNat = 66) then
      parseRadixNum 2 isBinDig rest
    else parseSigned (c0 :: c1 :: rest)
  | [c0] => parseSigned [c0]

/-- `Number()` on a possibly-undefined scalar. -/
def toNumber : Option Scalar → JNum
  | none => JNum.nan
  | some (Scalar.i v) => JNum.val (mkRat v 1)
  | some (Scalar.b b) => JNum.val (if b then 1 else 0)
  | some Scalar.null => JNum.val 0
  | some (Scalar.s s) => strToJNum s

/-- The JavaScript `>` on numbers: false whenever either side is NaN,
`-Infinity` exceeds nothing, nothing exceeds `+Infinity`, `+Infinity`
exceeds everything else, every finite value exceeds `-Infinity`. -/
def jgt : JNum → JNum → Bool
  | JNum.nan, _ => false
  | _, JNum.nan => false
  | JNum.inf true, _ => false
  | _, JNum.inf false => false
  | JNum.inf false, _ => true
  | _, JNum.inf true => true
  | JNum.val a, JNum.val b => decide (a > b)

/-! ### The filter builders inside `Company.findAll` and `Job.findAll` -/

/-- The `whereConditions` / `values` arrays `Company.findAll` builds from
its three membership checks, in source order: `name`, `minEmployees`,
`maxEmployees`. -/
def companyConds (queries : JSObj) : List String × List Scalar :=
  let s0 : List String × List Scalar := ([], [])
  let s1 := if queries.has "name" then
      (s0.1 ++ ["name ILIKE \x27%\x27 || $" ++ natToDec (s0.2.length + 1) ++ " || \x27%\x27"],
       s0.2 ++ [queries.getD "name"])
    else s0
  let s2 := if queries.has "minEmployees" then
      (s1.1 ++ ["num_employees >= $" ++ natToDec (s1.2.length + 1)],
       s1.2 ++ [queries.getD "minEmployees"])
    else s1
  let s3 := if queries.has "maxEmployees" then
      (s2.1 ++ ["num_employees <= $" ++ natToDec (s2.2.length + 1)],
       s2.2 ++ [queries.getD "maxEmployees"])
    else s2
  s3

/-- The first two condition blocks of `Job.findAll`: `title`, `minSalary`. -/
def jobCondsPre (queries : JSObj) : List String × List Scalar :=
  let s0 : List String × List Scalar := ([], [])
  let s1 := if queries.has "title" then
      (s0.1 ++ ["title ILIKE \x27%\x27 || $" ++ natToDec (s0.2.length + 1) ++ " || \x27%\x27"],
       s0.2 ++ [queries.getD "title"])
    else s0
  let s2 := if queries.has "minSalary" then
      (s1.1 ++ ["salary >= $" ++ natToDec (s1.2.length + 1)],
       s1.2 ++ [queries.getD "minSalary"])
    else s1
  s2

/-- The `clauseStatements` / `values` arrays `Job.findAll` builds: the two
blocks of `jobCondsPre`, then the equity block guarded by
`"hasEquity" in queries && queries.hasEquity === true`, which pushes the
literal `0` as the bound value. -/
def jobConds (queries : JSObj) : List String × List Scalar :=
  let s2 := jobCondsPre queries
  if queries.has "hasEquity" && decide (queries.get "hasEquity" = some (Scalar.b true)) then
    (s2.1 ++ ["equity > $" ++ natToDec (s2.2.length + 1)], s2.2 ++ [Scalar.i 0])
  else s2

/-- `conditions.length > 0 ? 'WHERE ' + conditions.join(' AND ') : ''`,
shared by both findAll functions. -/
def whereOf (conds : List String) : String :=
  if conds.length > 0 then "WHERE " ++ joinSep " AND " conds else ""

/-- The template literal `Company.findAll` interpolates `whereClause` into,
whitespace as in source. -/
def companySQL (whereClause : String) : String :=
  "\n      SELECT handle,\n             name,\n             description,\n             num_employees AS \"numEmployees\",\n             logo_url      AS \"logoUrl\"\n      FROM companies\n      "
    ++ whereClause ++ "\n      ORDER BY name\n    "

/-- The template literal `Job.findAll` interpolates `whereClause` into,
whitespace as in source. -/
def jobSQL (whereClause : String) : String :=
  "\n      SELECT id,\n            title,\n            salary,\n            equity,\n            company_handle AS \"companyHandle\"\n        FROM jobs\n        "
    ++ whereClause ++ "\n        ORDER BY id\n    "

/-- `Company.findAll(queries)` up to the database call: the range check
`Number(queries.minEmployees) > Number(queries.maxEmployees)` throws
`BadRequestError()` before any condition is built; otherwise the function
returns the assembled SQL text and the positional values it hands
`db.query`. -/
def companyFindAll (queries : JSObj) : Except JError (String × List Scalar) :=
  if jgt (toNumber (queries.get "minEmployees")) (toNumber (queries.get "maxEmployees")) then
    Except.error (JError.badRequest none)
  else
    let c := companyConds queries
    Except.ok (companySQL (whereOf c.1), c.2)

/-- `Job.findAll(queries)` up to the database call; it has no throwing
path. -/
def jobFindAll (queries : JSObj) : String × List Scalar :=
  let c := jobConds queries
  (jobSQL (whereOf c.1), c.2)

/-! ### Extracting positional placeholders from a clause string

The spec's SqlFragment invariant speaks of the placeholders a clause
*references*.  In SQL text a `$` inside a double-quoted identifier is part
of the identifier, not a parameter reference, so the scan below tracks
double quotes and collects each maximal digit run after a `$` outside
them, left to right.  The single-quoted `'%'` literals of the ILIKE
predicates contain no `$` and need no special treatment. -/

/-- The double-quote character. -/
def quoteChar : Char := Char.ofNat 34

/-- The dollar character. -/
def dollarChar : Char := Char.ofNat 36

/-- Scanner mode between characters: outside a placeholder, right after a
`$`, or inside the digit run of a placeholder whose value so far is `d`. -/
inductive PHRun where
  | idle
  | afterDollar
  | run (d : Nat)
deriving DecidableEq, Repr

/-- Scanner state: inside double quotes or not, current mode, placeholders
found so far in order. -/
structure PHState where
  inQuote : Bool
  pend : PHRun
  found : List Nat
deriving DecidableEq, Repr

/-- Close the pending digit run, if any, onto the found list. -/
def flushPH : PHRun → List Nat → List Nat
  | PHRun.run d, f => f ++ [d]
  | _, f => f

/-- One scanner step. -/
def phStep (st : PHState) (c : Char) : PHState :=
  if st.inQuote then
    if c = quoteChar then ⟨false, PHRun.idle, st.found⟩ else st
  else if c = quoteChar then ⟨true, PHRun.idle, flushPH st.pend st.found⟩
  else if c = dollarChar then ⟨false, PHRun.afterDollar, flushPH st.pend st.found⟩
  else if isDig c then
    match st.pend with
    | PHRun.afterDollar => ⟨false, PHRun.run (digVal c), st.found⟩
    | PHRun.run d => ⟨false, PHRun.run (10 * d + digVal c), st.found⟩
    | PHRun.idle => st
  else ⟨false, PHRun.idle, flushPH st.pend st.found⟩

/-- The positional placeholders a string references, in order of
appearance. -/
def extractPH (s : String) : List Nat :=
  let st := s.data.foldl phStep ⟨false, PHRun.idle, []⟩
  flushPH st.pend st.found

/-- Substring occurrence test on character lists (used to state that the
assembled SQL omits the WHERE keyword). -/
def hasPrefixL : List Char → List Char → Bool
  | _, [] => true
  | [], _ :: _ => false
  | a :: as, b :: bs => a = b && hasPrefixL as bs

/-- Whether `pat` occurs as a contiguous substring of `s`. -/
def containsSub (s pat : List Char) : Bool :=
  match s with
  | [] => pat.isEmpty
  | _ :: rest => hasPrefixL s pat || containsSub rest pat

/-! ### Normal forms of the filter builders

Each findAll's condition arrays factor through the key-presence pattern
(for jobs including the strict `=== true` test on `hasEquity`) and the
looked-up values, applied in the rule set's declared order; insertion
order of the criteria map cannot be observed. -/

/-- The companies rule set in declared order (name, minEmployees,
maxEmployees), applied to a presence pattern and looked-up values. -/
def companyOrdered (b1 b2 b3 : Bool) (v1 v2 v3 : Scalar) : List String × List Scalar :=
  let s0 : List String × List Scalar := ([], [])
  let s1 := if b1 then
      (s0.1 ++ ["name ILIKE \x27%\x27 || $" ++ natToDec (s0.2.length + 1) ++ " || \x27%\x27"],
       s0.2 ++ [v1])
    else s0
  let s2 := if b2 then
      (s1.1 ++ ["num_employees >= $" ++ natToDec (s1.2.length + 1)], s1.2 ++ [v2])
    else s1
  let s3 := if b3 then
      (s2.1 ++ ["num_employees <= $" ++ natToDec (s2.2.length + 1)], s2.2 ++ [v3])
    else s2
  s3

/-- The jobs rule set in declared order (title, minSalary, hasEquity);
the equity rule always binds the literal `0`. -/
def jobOrdered (b1 b2 b3 : Bool) (v1 v2 : Scalar) : List String × List Scalar :=
  let s0 : List String × List Scalar := ([], [])
  let s1 := if b1 then
      (s0.1 ++ ["title ILIKE \x27%\x27 || $" ++ natToDec (s0.2.length + 1) ++ " || \x27%\x27"],
       s0.2 ++ [v1])
    else s0
  let s2 := if b2 then
      (s1.1 ++ ["salary >= $" ++ natToDec (s1.2.length + 1)], s1.2 ++ [v2])
    else s1
  let s3 := if b3 then
      (s2.1 ++ ["equity > $" ++ natToDec (s2.2.length + 1)], s2.2 ++ [Scalar.i 0])
    else s2
  s3

/-- Column-name resolution as the amended claim words it: a logical key
present in the name map with a truthy (non-empty) physical name resolves
to that name; a key that is absent, or mapped to the empty string,
resolves to itself. -/
def specResolveName (m : NameMap) (k : String) : String :=
  match lookupStr m k with
  | some v => if v ≠ "" then v else k
  | none => k

/-- The key-presence pattern `Company.findAll`'s clause construction can
observe: which of `name`, `minEmployees`, `maxEmployees` are present. -/
def companyKeyPattern (q : JSObj) : Bool × Bool × Bool :=
  (q.has "name", q.has "minEmployees", q.has "maxEmployees")

/-- The key-presence pattern `Job.findAll`'s clause construction can
observe: `title` and `minSalary` presence, and the strict
`hasEquity === true` test. -/
def jobKeyPattern (q : JSObj) : Bool × Bool × Bool :=
  (q.has "title", q.has "minSalary",
   q.has "hasEquity" && decide (q.get "hasEquity" = some (Scalar.b true)))

/-! ### Facts about digits and the scanner -/

theorem decVal_append (xs : List Nat) (y : Nat) :
    decVal (xs ++ [y]) = 10 * decVal xs + y := by
  simp [decVal, List.foldl_append]

theorem decDigitsFuel_spec : ∀ fuel n, n < fuel →
    decDigitsFuel fuel n ≠ [] ∧ (∀ d ∈ decDigitsFuel fuel n, d < 10) ∧
      decVal (decDigitsFuel fuel n) = n := by
  intro fuel
  induction fuel with
  | zero => intro n h; omega
  | succ f ih =>
    intro n h
    by_cases h10 : n < 10
    · refine ⟨by simp [decDigitsFuel, h10], ?_, ?_⟩
      · intro d hd
        simp [decDigitsFuel, h10] at hd
        omega
      · simp [decDigitsFuel, h10, decVal]
    · have hdiv : n / 10 < f := by
        have h1 : n / 10 < n := Nat.div_lt_self (by omega) (by omega)
        omega
      obtain ⟨hne, hmem, hval⟩ := ih (n / 10) hdiv
      refine ⟨by simp [decDigitsFuel, h10], ?_, ?_⟩
      · intro d hd
        simp only [decDigitsFuel, if_neg h10, List.mem_append, List.mem_singleton] at hd
        rcases hd with hd | hd
        · exact hmem d hd
        · omega
      · simp only [decDigitsFuel, if_neg h10]
        rw [decVal_append, hval]
        omega

theorem decDigits_spec (n : Nat) :
    decDigits n ≠ [] ∧ (∀ d ∈ decDigits n, d < 10) ∧ decVal (decDigits n) = n :=
  decDigitsFuel_spec (n + 1) n (by omega)

theorem digitChar_facts (d : Nat) (hd : d < 10) :
    isDig (digitChar d) = true ∧ digVal (digitChar d) = d ∧
      digitChar d ≠ quoteChar ∧ digitChar d ≠ dollarChar ∧
      digitChar d ≠ Char.ofNat 44 := by
  interval_cases d <;> decide

theorem phStep_quote_open (p : PHRun) (F : List Nat) :
    phStep ⟨false, p, F⟩ quoteChar = ⟨true, PHRun.idle, flushPH p F⟩ := by
  simp [phStep]

theorem phStep_quote_close (F : List Nat) :
    phStep ⟨true, PHRun.idle, F⟩ quoteChar = ⟨false, PHRun.idle, F⟩ := by
  simp [phStep]

theorem phStep_inQuote (c : Char) (h : c ≠ quoteChar) (F : List Nat) :
    phStep ⟨true, PHRun.idle, F⟩ c = ⟨true, PHRun.idle, F⟩ := by
  simp [phStep, h]

theorem phStep_dollar (p : PHRun) (F : List Nat) :
    phStep ⟨false, p, F⟩ dollarChar = ⟨false, PHRun.afterDollar, flushPH p F⟩ := by
  have h : dollarChar ≠ quoteChar := by decide
  simp [phStep, h]

theorem phStep_digit_after (d : Nat) (hd : d < 10) (F : List Nat) :
    phStep ⟨false, PHRun.afterDollar, F⟩ (digitChar d) = ⟨false, PHRun.run d, F⟩ := by
  obtain ⟨h1, h2, h3, h4, h5⟩ := digitChar_facts d hd
  simp [phStep, h1, h2, h3, h4]

theorem phStep_digit_runm (a d : Nat) (hd : d < 10) (F : List Nat) :
    phStep ⟨false, PHRun.run a, F⟩ (digitChar d) = ⟨false, PHRun.run (10 * a + d), F⟩ := by
  obtain ⟨h1, h2, h3, h4, h5⟩ := digitChar_facts d hd
  simp [phStep, h1, h2, h3, h4]

theorem phStep_other (c : Char) (hq : c ≠ quoteChar) (hd : c ≠ dollarChar)
    (hdig : isDig c = false) (p : PHRun) (F : List Nat) :
    phStep ⟨false, p, F⟩ c = ⟨false, PHRun.idle, flushPH p F⟩ := by
  simp [phStep, hq, hd, hdig]

theorem foldl_inQuote (cs : List Char) (h : quoteChar ∉ cs) (F : List Nat) :
    cs.foldl phStep ⟨true, PHRun.idle, F⟩ = ⟨true, PHRun.idle, F⟩ := by
  induction cs with
  | nil => rfl
  | cons c cs ih =>
    rw [List.mem_cons, not_or] at h
    rw [List.foldl_cons, phStep_inQuote c (fun hc => h.1 hc.symm) F]
    exact ih h.2

theorem foldl_digits_run (ds : List Nat) (h : ∀ d ∈ ds, d < 10) (a : Nat) (F : List Nat) :
    (ds.map digitChar).foldl phStep ⟨false, PHRun.run a, F⟩
      = ⟨false, PHRun.run (ds.foldl (fun x d => 10 * x + d) a), F⟩ := by
  induction ds generalizing a with
  | nil => rfl
  | cons d ds ih =>
    rw [List.map_cons, List.foldl_cons, phStep_digit_runm a d (h d (by simp)) F,
      List.foldl_cons]
    exact ih (fun x hx => h x (by simp [hx])) _

theorem foldl_digits_afterDollar (ds : List Nat) (h : ∀ d ∈ ds, d < 10)
    (hne : ds ≠ []) (F : List Nat) :
    (ds.map digitChar).foldl phStep ⟨false, PHRun.afterDollar, F⟩
      = ⟨false, PHRun.run (decVal ds), F⟩ := by
  cases ds with
  | nil => exact absurd rfl hne
  | cons d ds =>
    rw [List.map_cons, List.foldl_cons, phStep_digit_after d (h d (by simp)) F,
      foldl_digits_run ds (fun x hx => h x (by simp [hx])) d F]
    congr 2
    simp [decVal]

theorem frag_effect (c : String) (hq : quoteChar ∉ c.data) (j : Nat)
    (F : List Nat) :
    ("\"" ++ c ++ "\"=$" ++ natToDec j).data.foldl phStep ⟨false, PHRun.idle, F⟩
      = ⟨false, PHRun.run j, F⟩ := by
  obtain ⟨hne, hmem, hval⟩ := decDigits_spec j
  rw [String.data_append, String.data_append, String.data_append,
    List.foldl_append, List.foldl_append, List.foldl_append]
  have s1 : "\"".data.foldl phStep (⟨false, PHRun.idle, F⟩ : PHState)
      = ⟨true, PHRun.idle, F⟩ := by
    have hd : "\"".data = [quoteChar] := by decide
    rw [hd, List.foldl_cons, List.foldl_nil, phStep_quote_open]
    rfl
  rw [s1, foldl_inQuote c.data hq F]
  have s3 : "\"=$".data.foldl phStep (⟨true, PHRun.idle, F⟩ : PHState)
      = ⟨false, PHRun.afterDollar, F⟩ := by
    have hd : "\"=$".data = [quoteChar, Char.ofNat 61, dollarChar] := by decide
    rw [hd, List.foldl_cons, phStep_quote_close, List.foldl_cons,
      phStep_other (Char.ofNat 61) (by decide) (by decide) (by decide),
      List.foldl_cons, List.foldl_nil, phStep_dollar]
    rfl
  rw [s3]
  have s4 : (natToDec j).data = (decDigits j).map digitChar := rfl
  rw [s4, foldl_digits_afterDollar (decDigits j) hmem hne F, hval]

theorem sep_effect (d : Nat) (F : List Nat) :
    ", ".data.foldl phStep ⟨false, PHRun.run d, F⟩ = ⟨false, PHRun.idle, F ++ [d]⟩ := by
  have hd : ", ".data = [Char.ofNat 44, Char.ofNat 32] := by decide
  rw [hd, List.foldl_cons, phStep_other (Char.ofNat 44) (by decide) (by decide) (by decide),
    List.foldl_cons, List.foldl_nil,
    phStep_other (Char.ofNat 32) (by decide) (by decide) (by decide)]
  rfl

theorem joinSep_cons2 (sep x y : String) (l : List String) :
    joinSep sep (x :: y :: l) = x ++ sep ++ joinSep sep (y :: l) := rfl

theorem range1_concat (n s : Nat) : List.range' s n ++ [s + n] = List.range' s (n + 1) := by
  induction n generalizing s with
  | zero => simp [List.range']
  | succ n ih =>
    have h : List.range' s (n + 1) = s :: List.range' (s + 1) n := rfl
    have h2 : List.range' s (n + 1 + 1) = s :: List.range' (s + 1) (n + 1) := rfl
    rw [h, h2, List.cons_append, show s + (n + 1) = (s + 1) + n by omega, ih (s + 1)]

theorem join_effect (m : NameMap) :
    ∀ (keys : List String) (j : Nat) (F : List Nat), keys ≠ [] →
    (∀ k ∈ keys, quoteChar ∉ (resolveName m k).data) →
    (joinSep ", " ((List.enumFrom j keys).map (fragOf m))).data.foldl phStep
        ⟨false, PHRun.idle, F⟩
      = ⟨false, PHRun.run (j + keys.length), F ++ List.range' (j + 1) (keys.length - 1)⟩ := by
  intro keys
  induction keys with
  | nil => intro j F h _; exact absurd rfl h
  | cons k ks ih =>
    intro j F _ hq
    cases ks with
    | nil =>
      have he : (List.enumFrom j [k]).map (fragOf m) = [fragOf m (j, k)] := rfl
      rw [he]
      show (fragOf m (j, k)).data.foldl phStep ⟨false, PHRun.idle, F⟩ = _
      rw [show fragOf m (j, k) = "\"" ++ resolveName m k ++ "\"=$" ++ natToDec (j + 1) from rfl,
        frag_effect (resolveName m k) (hq k (by simp)) (j + 1) F]
      simp [List.range']
    | cons k2 ks =>
      have he : (List.enumFrom j (k :: k2 :: ks)).map (fragOf m)
          = fragOf m (j, k) :: (List.enumFrom (j + 1) (k2 :: ks)).map (fragOf m) := rfl
      rw [he]
      have he2 : (List.enumFrom (j + 1) (k2 :: ks)).map (fragOf m)
          = fragOf m (j + 1, k2) :: (List.enumFrom (j + 2) ks).map (fragOf m) := rfl
      rw [he2, joinSep_cons2, ← he2]
      rw [String.data_append, String.data_append, List.foldl_append, List.foldl_append]
      rw [show fragOf m (j, k) = "\"" ++ resolveName m k ++ "\"=$" ++ natToDec (j + 1) from rfl,
        frag_effect (resolveName m k) (hq k (by simp)) (j + 1) F, sep_effect]
      have := ih (j + 1) (F ++ [j + 1]) (by simp) (fun x hx => hq x (by simp [hx]))
      rw [this]
      have hlen : (k2 :: ks).length - 1 = ks.length := rfl
      have hlen2 : (k :: k2 :: ks).length - 1 = ks.length + 1 := rfl
      rw [hlen, hlen2]
      have hr : List.range' (j + 1) (ks.length + 1) = (j + 1) :: List.range' (j + 2) ks.length := rfl
      rw [hr]
      congr 1
      · congr 1
        simp [List.length_cons]
        omega
      · simp

theorem update_extract (data : JSObj) (m : NameMap) (hne : data ≠ [])
    (hq : ∀ k ∈ data.map Prod.fst, quoteChar ∉ (resolveName m k).data) :
    ∃ frag, sqlForPartialUpdate data m = Except.ok frag ∧
      frag.clause = joinSep ", " (updateCols (data.map Prod.fst) m) ∧
      frag.values = data.map Prod.snd ∧
      extractPH frag.clause = List.range' 1 data.length := by
  have hlen : ¬ (data.map (fun p => p.1)).length = 0 := by
    simp only [List.length_map, List.length_eq_zero]
    exact hne
  refine ⟨{ clause := joinSep ", " (updateCols (data.map (fun p => p.1)) m),
            values := data.map (fun p => p.2) }, ?_, rfl, rfl, ?_⟩
  · simp only [sqlForPartialUpdate, if_neg hlen]
  · have hkeys : data.map (fun p => p.1) ≠ [] := by
      simpa using hne
    have hcols : updateCols (data.map (fun p => p.1)) m
        = (List.enumFrom 0 (data.map (fun p => p.1))).map (fragOf m) := rfl
    simp only [extractPH, hcols]
    rw [join_effect m (data.map (fun p => p.1)) 0 [] hkeys hq]
    simp only [flushPH, List.nil_append, Nat.zero_add, List.length_map]
    have hpos : 0 < data.length := List.length_pos.mpr hne
    have h2 := range1_concat (data.length - 1) 1
    rw [show 1 + (data.length - 1) = data.length from by omega] at h2
    rw [show data.length - 1 + 1 = data.length from by omega] at h2
    exact h2

theorem companyConds_eq (q : JSObj) :
    companyConds q = companyOrdered (q.has "name") (q.has "minEmployees")
      (q.has "maxEmployees") (q.getD "name") (q.getD "minEmployees")
      (q.getD "maxEmployees") := rfl

theorem jobConds_eq (q : JSObj) :
    jobConds q = jobOrdered (q.has "title") (q.has "minSalary")
      (q.has "hasEquity" && decide (q.get "hasEquity" = some (Scalar.b true)))
      (q.getD "title") (q.getD "minSalary") := rfl

theorem companyOrdered_fst (b1 b2 b3 : Bool) (v1 v2 v3 u1 u2 u3 : Scalar) :
    (companyOrdered b1 b2 b3 v1 v2 v3).1 = (companyOrdered b1 b2 b3 u1 u2 u3).1 := by
  cases b1 <;> cases b2 <;> cases b3 <;> rfl

theorem jobOrdered_fst (b1 b2 b3 : Bool) (v1 v2 u1 u2 : Scalar) :
    (jobOrdered b1 b2 b3 v1 v2).1 = (jobOrdered b1 b2 b3 u1 u2).1 := by
  cases b1 <;> cases b2 <;> cases b3 <;> rfl

theorem companyOrdered_extract (b1 b2 b3 : Bool) (v1 v2 v3 : Scalar) :
    extractPH (joinSep " AND " (companyOrdered b1 b2 b3 v1 v2 v3).1)
      = List.range' 1 (companyOrdered b1 b2 b3 v1 v2 v3).2.length := by
  cases b1 <;> cases b2 <;> cases b3 <;> simp [companyOrdered] <;> decide

theorem jobOrdered_extract (b1 b2 b3 : Bool) (v1 v2 : Scalar) :
    extractPH (joinSep " AND " (jobOrdered b1 b2 b3 v1 v2).1)
      = List.range' 1 (jobOrdered b1 b2 b3 v1 v2).2.length := by
  cases b1 <;> cases b2 <;> cases b3 <;> simp [jobOrdered] <;> decide

/-! ### The claims -/

/-- C1: every `{clause, values}` either builder produces references exactly
`len(values)` positional placeholders, numbered `$1` through
`$len(values)`, no gaps, no repeats, each exactly once, increasing left to
right (`extractPH clause = [1, ..., len(values)]`).  For
`sqlForPartialUpdate` this holds on every non-empty input whose resolved
column names contain no double-quote character — the spec's stated
trusted-mapping precondition (a quote would break the identifier quoting
the scan, like SQL, respects); the two filter builders satisfy it on all
criteria. -/
theorem placeholder_numbering_invariant :
    (∀ (data : JSObj) (m : NameMap), data ≠ [] →
      (∀ k ∈ data.map Prod.fst, quoteChar ∉ (resolveName m k).data) →
      ∃ frag, sqlForPartialUpdate data m = Except.ok frag ∧
        extractPH frag.clause = List.range' 1 frag.values.length) ∧
    (∀ q : JSObj, extractPH (joinSep " AND " (companyConds q).1)
        = List.range' 1 (companyConds q).2.length) ∧
    (∀ q : JSObj, extractPH (joinSep " AND " (jobConds q).1)
        = List.range' 1 (jobConds q).2.length) := by
  refine ⟨?_, ?_, ?_⟩
  · intro data m hne hq
    obtain ⟨frag, hok, hclause, hvals, hext⟩ := update_extract data m hne hq
    refine ⟨frag, hok, ?_⟩
    rw [hext, hvals, List.length_map]
  · intro q
    rw [companyConds_eq]
    exact companyOrdered_extract _ _ _ _ _ _
  · intro q
    rw [jobConds_eq]
    exact jobOrdered_extract _ _ _ _ _

theorem placeholder_numbering_witness :
    (∃ frag, sqlForPartialUpdate [("firstName", Scalar.s "Aliya")] []
        = Except.ok frag ∧
      extractPH frag.clause = List.range' 1 frag.values.length) ∧
    extractPH (joinSep " AND " (companyConds [("name", Scalar.s "net")]).1)
      = List.range' 1 (companyConds [("name", Scalar.s "net")]).2.length :=
  ⟨placeholder_numbering_invariant.1 [("firstName", Scalar.s "Aliya")] []
      (by decide) (by decide),
   placeholder_numbering_invariant.2.1 [("name", Scalar.s "net")]⟩

theorem natToDec_no_comma (n : Nat) : Char.ofNat 44 ∉ (natToDec n).data := by
  obtain ⟨-, hmem, -⟩ := decDigits_spec n
  intro hmemc
  rw [show (natToDec n).data = (decDigits n).map digitChar from rfl] at hmemc
  obtain ⟨d, hd, hdc⟩ := List.mem_map.mp hmemc
  exact (digitChar_facts d (hmem d hd)).2.2.2.2 hdc

theorem fragOf_count_comma (m : NameMap) (j : Nat) (k : String)
    (hc : Char.ofNat 44 ∉ (resolveName m k).data) :
    (fragOf m (j, k)).data.count (Char.ofNat 44) = 0 := by
  rw [List.count_eq_zero]
  intro hmem
  simp only [fragOf, String.data_append, List.mem_append] at hmem
  rcases hmem with ((h1 | h2) | h3) | h4
  · revert h1; decide
  · exact hc h2
  · revert h3; decide
  · exact natToDec_no_comma (j + 1) h4

theorem count_comma_joinSep (frags : List String)
    (h : ∀ f ∈ frags, f.data.count (Char.ofNat 44) = 0) :
    (joinSep ", " frags).data.count (Char.ofNat 44) = frags.length - 1 := by
  induction frags with
  | nil => decide
  | cons f fs ih =>
    cases fs with
    | nil =>
      show f.data.count (Char.ofNat 44) = 0
      exact h f (by simp)
    | cons f2 fs2 =>
      rw [joinSep_cons2, String.data_append, String.data_append,
        List.count_append, List.count_append, h f (by simp),
        ih (fun x hx => h x (by simp [hx])),
        show ", ".data.count (Char.ofNat 44) = 1 from by decide]
      simp [List.length_cons]
      omega

/-- C2: on every non-empty `updates` map of size `n` (resolved column
names quote- and comma-free, per the trusted-mapping precondition) the
builder succeeds with a clause of exactly `n` comma-separated assignments
(`n - 1` comma characters, fragments in the input's key iteration order,
placeholder of entry `i` being `$i`), placeholders `$1..$n` strictly
increasing, and `values` is the input's values in the same iteration
order, so `values[i-1]` is bound to `$i`. -/
theorem update_clause_shape :
    ∀ (data : JSObj) (m : NameMap), data ≠ [] →
    (∀ k ∈ data.map Prod.fst,
      quoteChar ∉ (resolveName m k).data ∧ Char.ofNat 44 ∉ (resolveName m k).data) →
    ∃ frag, sqlForPartialUpdate data m = Except.ok frag ∧
      frag.values = data.map Prod.snd ∧
      frag.values.length = data.length ∧
      frag.clause = joinSep ", " (updateCols (data.map Prod.fst) m) ∧
      frag.clause.data.count (Char.ofNat 44) = data.length - 1 ∧
      extractPH frag.clause = List.range' 1 data.length := by
  intro data m hne hq
  obtain ⟨frag, hok, hclause, hvals, hext⟩ :=
    update_extract data m hne (fun k hk => (hq k hk).1)
  refine ⟨frag, hok, hvals, by rw [hvals, List.length_map], hclause, ?_, hext⟩
  rw [hclause]
  have hfr : ∀ f ∈ updateCols (data.map Prod.fst) m,
      f.data.count (Char.ofNat 44) = 0 := by
    intro f hf
    obtain ⟨p, hp, hfp⟩ := List.mem_map.mp hf
    have hp2 : p.2 ∈ data.map Prod.fst := by
      have hmm := List.mem_map_of_mem Prod.snd hp
      rwa [show (List.map Prod.fst data).enum
          = List.enumFrom 0 (List.map Prod.fst data) from rfl,
        List.enumFrom_map_snd] at hmm
    rw [← hfp]
    exact fragOf_count_comma m p.1 p.2 (hq p.2 hp2).2
  rw [count_comma_joinSep _ hfr]
  simp [updateCols]

theorem update_clause_shape_witness :
    ∃ frag, sqlForPartialUpdate [("a", Scalar.i 1), ("b", Scalar.i 2)] []
        = Except.ok frag ∧
      frag.values = [Scalar.i 1, Scalar.i 2] ∧
      frag.values.length = 2 ∧
      frag.clause = joinSep ", " (updateCols ["a", "b"] []) ∧
      frag.clause.data.count (Char.ofNat 44) = 1 ∧
      extractPH frag.clause = List.range' 1 2 :=
  update_clause_shape [("a", Scalar.i 1), ("b", Scalar.i 2)] [] (by decide) (by decide)

/-- C3: an empty updates map always fails with the client-input error
(`BadRequestError("No data")`), producing no clause and no values; every
non-empty updates map succeeds, so the error is never raised there. -/
theorem empty_update_rejected :
    (∀ m : NameMap, sqlForPartialUpdate [] m
        = Except.error (JError.badRequest (some "No data"))) ∧
    (∀ (data : JSObj) (m : NameMap), data ≠ [] →
      ∃ frag, sqlForPartialUpdate data m = Except.ok frag) := by
  refine ⟨fun m => rfl, fun data m hne => ?_⟩
  have hlen : ¬ (data.map (fun p => p.1)).length = 0 := by
    simp only [List.length_map, List.length_eq_zero]
    exact hne
  refine ⟨{ clause := joinSep ", " (updateCols (data.map (fun p => p.1)) m),
            values := data.map (fun p => p.2) }, ?_⟩
  simp only [sqlForPartialUpdate, if_neg hlen]

theorem empty_update_rejected_witness :
    sqlForPartialUpdate [] [("firstName", "first_name")]
        = Except.error (JError.badRequest (some "No data")) ∧
    ∃ frag, sqlForPartialUpdate [("age", Scalar.i 1)] [] = Except.ok frag :=
  ⟨empty_update_rejected.1 [("firstName", "first_name")],
   empty_update_rejected.2 [("age", Scalar.i 1)] [] (by decide)⟩

/-- C4 counterexample: the claim says a key present in the name map always
gets its mapped physical name.  With the key `a` present and mapped to the
empty string, the source's `jsToSql[colName] || colName` takes the falsy
branch and emits the logical key verbatim, not the mapped name. -/
theorem verbatim_fallback_counterexample :
    lookupStr [("a", "")] "a" = some "" ∧
    sqlForPartialUpdate [("a", Scalar.s "v")] [("a", "")]
      = Except.ok { clause := "\"a\"=$1", values := [Scalar.s "v"] } ∧
    "\"a\"=$1" ≠ "\"\"=$1" := by
  exact ⟨rfl, rfl, by decide⟩

theorem resolveName_eq_spec (m : NameMap) (k : String) :
    resolveName m k = specResolveName m k := by
  unfold resolveName specResolveName
  cases lookupStr m k with
  | none => rfl
  | some v => by_cases hv : v = "" <;> simp [hv]

/-- C4 amended: every emitted assignment of the update builder uses the
mapped physical name when the logical key is present in the name map with
a non-empty (truthy) value, and the logical key verbatim otherwise —
absent key, or key mapped to the empty string. -/
theorem truthy_name_resolution :
    ∀ (data : JSObj) (m : NameMap), data ≠ [] →
    ∃ frag, sqlForPartialUpdate data m = Except.ok frag ∧
      frag.clause = joinSep ", " ((data.map Prod.fst).enum.map
        (fun p => "\"" ++ specResolveName m p.2 ++ "\"=$" ++ natToDec (p.1 + 1))) := by
  intro data m hne
  have hlen : ¬ (data.map (fun p => p.1)).length = 0 := by
    simp only [List.length_map, List.length_eq_zero]
    exact hne
  refine ⟨{ clause := joinSep ", " (updateCols (data.map (fun p => p.1)) m),
            values := data.map (fun p => p.2) }, ?_, ?_⟩
  · simp only [sqlForPartialUpdate, if_neg hlen]
  · show joinSep ", " ((data.map (fun p => p.1)).enum.map (fragOf m)) = _
    have hf : fragOf m = (fun p : Nat × String =>
        "\"" ++ specResolveName m p.2 ++ "\"=$" ++ natToDec (p.1 + 1)) := by
      funext p
      simp [fragOf, resolveName_eq_spec]
    rw [hf]

theorem truthy_name_resolution_witness :
    ∃ frag, sqlForPartialUpdate [("numEmployees", Scalar.i 7)]
        [("numEmployees", "num_employees")] = Except.ok frag ∧
      frag.clause = joinSep ", " (([("numEmployees", Scalar.i 7)].map
          (Prod.fst (β := Scalar))).enum.map
        (fun p => "\"" ++ specResolveName [("numEmployees", "num_employees")] p.2
          ++ "\"=$" ++ natToDec (p.1 + 1))) :=
  truthy_name_resolution [("numEmployees", Scalar.i 7)]
    [("numEmployees", "num_employees")] (by decide)

/-- C5: the spec's concrete scenario, `updates = {firstName: "Aliya",
age: 32}` with `nameMap = {firstName: "first_name"}`, yields the clause
`"first_name"=$1, "age"=$2` — each resolved column double-quoted — and
`values = ["Aliya", 32]`. -/
theorem concrete_update_scenario :
    sqlForPartialUpdate [("firstName", Scalar.s "Aliya"), ("age", Scalar.i 32)]
        [("firstName", "first_name")]
      = Except.ok { clause := "\"first_name\"=$1, \"age\"=$2",
                    values := [Scalar.s "Aliya", Scalar.i 32] } := rfl

/-- C6: both filter builders emit predicates only for recognized keys that
are present, in the rule set's declared order — the normal forms
`companyOrdered` (name, minEmployees, maxEmployees) and `jobOrdered`
(title, minSalary, hasEquity) depend on the criteria only through key
presence and value lookup, never through insertion order; concretely, the
companies criteria `{minEmployees: 10, maxEmployees: 50}` give the min
predicate then the max predicate and `values = [10, 50]` under either
insertion order. -/
theorem declared_order_filtering :
    (∀ q : JSObj, companyConds q = companyOrdered (q.has "name")
        (q.has "minEmployees") (q.has "maxEmployees") (q.getD "name")
        (q.getD "minEmployees") (q.getD "maxEmployees")) ∧
    (∀ q : JSObj, jobConds q = jobOrdered (q.has "title") (q.has "minSalary")
        (q.has "hasEquity" && decide (q.get "hasEquity" = some (Scalar.b true)))
        (q.getD "title") (q.getD "minSalary")) ∧
    companyConds [("minEmployees", Scalar.i 10), ("maxEmployees", Scalar.i 50)]
      = (["num_employees >= $1", "num_employees <= $2"], [Scalar.i 10, Scalar.i 50]) ∧
    companyConds [("maxEmployees", Scalar.i 50), ("minEmployees", Scalar.i 10)]
      = (["num_employees >= $1", "num_employees <= $2"], [Scalar.i 10, Scalar.i 50]) :=
  ⟨companyConds_eq, jobConds_eq, by decide, by decide⟩

/-- C7 counterexample: the claim promises the equity predicate whenever
the key `hasEquity` is present, but with `hasEquity: false` present the
source's `queries.hasEquity === true` guard fails and nothing is
emitted. -/
theorem equity_presence_counterexample :
    JSObj.has [("hasEquity", Scalar.b false)] "hasEquity" = true ∧
    jobConds [("hasEquity", Scalar.b false)] = ([], []) := by
  decide

theorem has_of_get_some (q : JSObj) (k : String) (v : Scalar)
    (h : JSObj.get q k = some v) : JSObj.has q k = true := by
  unfold JSObj.get at h
  cases hf : q.find? (fun p => p.1 = k) with
  | none => rw [hf] at h; simp at h
  | some e =>
    have he := List.find?_some hf
    have hm := List.mem_of_find?_eq_some hf
    unfold JSObj.has
    rw [List.any_eq_true]
    exact ⟨e, hm, he⟩

/-- C7 amended: the equity predicate is emitted exactly when `hasEquity`
is present with value strictly equal to `true`; it then uses the
strictly-greater comparison and binds the literal `0`, ignoring the
criteria value itself.  When `hasEquity` is absent or not `true`, the
builder emits only the title/minSalary blocks.  Concretely,
`{hasEquity: true}` yields the one predicate `equity > $1` with
`values = [0]`. -/
theorem equity_strict_true_rule :
    (∀ q : JSObj, q.get "hasEquity" = some (Scalar.b true) →
      jobConds q = ((jobCondsPre q).1
          ++ ["equity > $" ++ natToDec ((jobCondsPre q).2.length + 1)],
        (jobCondsPre q).2 ++ [Scalar.i 0])) ∧
    (∀ q : JSObj, ¬ q.get "hasEquity" = some (Scalar.b true) →
      jobConds q = jobCondsPre q) ∧
    jobConds [("hasEquity", Scalar.b true)] = (["equity > $1"], [Scalar.i 0]) := by
  refine ⟨?_, ?_, by decide⟩
  · intro q hget
    have hhas := has_of_get_some q "hasEquity" (Scalar.b true) hget
    simp [jobConds, hhas, hget]
  · intro q hget
    have hb : (q.has "hasEquity"
        && decide (q.get "hasEquity" = some (Scalar.b true))) = false := by
      simp [hget]
    simp [jobConds, hb]

theorem equity_strict_true_witness :
    jobConds [("title", Scalar.s "x"), ("hasEquity", Scalar.b true)]
      = ((jobCondsPre [("title", Scalar.s "x"), ("hasEquity", Scalar.b true)]).1
          ++ ["equity > $" ++ natToDec
            ((jobCondsPre [("title", Scalar.s "x"), ("hasEquity", Scalar.b true)]).2.length + 1)],
        (jobCondsPre [("title", Scalar.s "x"), ("hasEquity", Scalar.b true)]).2
          ++ [Scalar.i 0]) ∧
    jobConds [("hasEquity", Scalar.b false)]
      = jobCondsPre [("hasEquity", Scalar.b false)] :=
  ⟨equity_strict_true_rule.1 _ (by decide), equity_strict_true_rule.2.1 _ (by decide)⟩

/-- C8: the filter builders are total — every criteria map, the empty map
included, yields a well-defined result — and when no rule matches the
condition list and value list are empty, the clause is the empty string,
and the assembled SQL omits the WHERE keyword entirely (the text contains
no occurrence of `WHERE` at all). -/
theorem empty_filter_clause :
    (∀ q : JSObj, q.has "name" = false → q.has "minEmployees" = false →
      q.has "maxEmployees" = false →
      companyConds q = ([], []) ∧ whereOf (companyConds q).1 = "" ∧
        containsSub (companySQL (whereOf (companyConds q).1)).data "WHERE".data
          = false) ∧
    (∀ q : JSObj, q.has "title" = false → q.has "minSalary" = false →
      ¬ q.get "hasEquity" = some (Scalar.b true) →
      jobConds q = ([], []) ∧ whereOf (jobConds q).1 = "" ∧
        containsSub (jobSQL (whereOf (jobConds q).1)).data "WHERE".data
          = false) := by
  constructor
  · intro q h1 h2 h3
    have hc : companyConds q = ([], []) := by
      rw [companyConds_eq, h1, h2, h3]
      rfl
    refine ⟨hc, ?_, ?_⟩ <;> rw [hc] <;> decide
  · intro q h1 h2 hget
    have hb : (q.has "hasEquity"
        && decide (q.get "hasEquity" = some (Scalar.b true))) = false := by
      simp [hget]
    have hc : jobConds q = ([], []) := by
      rw [jobConds_eq, h1, h2, hb]
      rfl
    refine ⟨hc, ?_, ?_⟩ <;> rw [hc] <;> decide

theorem empty_filter_clause_witness :
    (companyConds ([] : JSObj) = ([], []) ∧ whereOf (companyConds []).1 = "" ∧
      containsSub (companySQL (whereOf (companyConds []).1)).data "WHERE".data
        = false) ∧
    (jobConds ([("irrelevant", Scalar.i 3)] : JSObj) = ([], []) ∧
      whereOf (jobConds [("irrelevant", Scalar.i 3)]).1 = "" ∧
      containsSub
        (jobSQL (whereOf (jobConds [("irrelevant", Scalar.i 3)]).1)).data
        "WHERE".data = false) :=
  ⟨empty_filter_clause.1 [] (by decide) (by decide) (by decide),
   empty_filter_clause.2 [("irrelevant", Scalar.i 3)] (by decide) (by decide)
     (by decide)⟩

theorem companyConds_fst_pattern (q1 q2 : JSObj)
    (h : companyKeyPattern q1 = companyKeyPattern q2) :
    (companyConds q1).1 = (companyConds q2).1 := by
  have e1 : q1.has "name" = q2.has "name" :=
    congrArg (fun t => t.1) h
  have e2 : q1.has "minEmployees" = q2.has "minEmployees" :=
    congrArg (fun t => t.2.1) h
  have e3 : q1.has "maxEmployees" = q2.has "maxEmployees" :=
    congrArg (fun t => t.2.2) h
  rw [companyConds_eq, companyConds_eq, e1, e2, e3]
  exact companyOrdered_fst _ _ _ _ _ _ _ _ _

theorem jobConds_fst_pattern (q1 q2 : JSObj)
    (h : jobKeyPattern q1 = jobKeyPattern q2) :
    (jobConds q1).1 = (jobConds q2).1 := by
  have e1 : q1.has "title" = q2.has "title" :=
    congrArg (fun t => t.1) h
  have e2 : q1.has "minSalary" = q2.has "minSalary" :=
    congrArg (fun t => t.2.1) h
  have e3 : (q1.has "hasEquity" && decide (q1.get "hasEquity" = some (Scalar.b true)))
      = (q2.has "hasEquity" && decide (q2.get "hasEquity" = some (Scalar.b true))) :=
    congrArg (fun t => t.2.2) h
  rw [jobConds_eq, jobConds_eq, e1, e2, e3]
  exact jobOrdered_fst _ _ _ _ _ _ _

/-- C10: the SQL text either findAll assembles depends only on which
recognized keys are present (and, for `hasEquity`, on whether its value is
strictly `true`), never on the criteria values: two criteria maps with the
same key pattern produce byte-identical SQL strings, differing only in the
positional parameter arrays, so criteria values cannot reach the SQL
text. -/
theorem sql_text_key_pattern_only :
    (∀ (q1 q2 : JSObj) (r1 r2 : String × List Scalar),
      companyKeyPattern q1 = companyKeyPattern q2 →
      companyFindAll q1 = Except.ok r1 → companyFindAll q2 = Except.ok r2 →
      r1.1 = r2.1) ∧
    (∀ q1 q2 : JSObj, jobKeyPattern q1 = jobKeyPattern q2 →
      (jobFindAll q1).1 = (jobFindAll q2).1) := by
  constructor
  · intro q1 q2 r1 r2 hpat h1 h2
    unfold companyFindAll at h1 h2
    split at h1
    · exact absurd h1 (by simp)
    · split at h2
      · exact absurd h2 (by simp)
      · have e1 := Except.ok.inj h1
        have e2 := Except.ok.inj h2
        rw [← e1, ← e2]
        show companySQL (whereOf (companyConds q1).1)
          = companySQL (whereOf (companyConds q2).1)
        rw [companyConds_fst_pattern q1 q2 hpat]
  · intro q1 q2 hpat
    show jobSQL (whereOf (jobConds q1).1) = jobSQL (whereOf (jobConds q2).1)
    rw [jobConds_fst_pattern q1 q2 hpat]

theorem sql_text_key_pattern_witness :
    (companySQL (whereOf (companyConds [("name", Scalar.s "a")]).1),
        (companyConds [("name", Scalar.s "a")]).2).1
      = (companySQL (whereOf (companyConds [("name", Scalar.s "bb")]).1),
        (companyConds [("name", Scalar.s "bb")]).2).1 ∧
    (jobFindAll [("minSalary", Scalar.i 100)]).1
      = (jobFindAll [("minSalary", Scalar.i 999999)]).1 :=
  ⟨sql_text_key_pattern_only.1 [("name", Scalar.s "a")] [("name", Scalar.s "bb")]
      _ _ (by decide) rfl rfl,
   sql_text_key_pattern_only.2 [("minSalary", Scalar.i 100)]
      [("minSalary", Scalar.i 999999)] (by decide)⟩
